import Mathlib

/-!
Verification development for the coParrot change-classification and
sequential-commit orchestration engine.

The definitions below are a shallow embedding of the JavaScript source:
* `src/services/git.js` — status/numstat parsing (`_parseStatus`,
  `_parseNumStat`, `_getChangeType`, `getDetailedStatus`);
* `src/commands/add.js` — the partitioner (`applyIgnorePatterns`,
  `applyGroupPatterns`) and the squawk orchestrator
  (`processFilesSequentially`, `processGroups`, `squawk`);
* `src/services/llms.js` — the approval loop (`generateWithApproval`).

String primitives (split, trim, substring) are implemented over `List Char`
so that every definition evaluates inside the kernel; they mirror the
JavaScript string operations used by the source on the ASCII inputs the
program handles.  Effectful collaborators (git subprocesses, the LLM
provider, interactive prompts) are passed in as explicit oracles, and
fallible steps return `Except`.
-/

namespace CoParrot

/-- Split a character list at every occurrence of `sep`, mirroring
JavaScript `String.prototype.split` with a single-character separator:
`split` of the empty string is `[""]`, and separators at the ends produce
empty fields. -/
def splitOnChar (sep : Char) : List Char → List (List Char)
  | [] => [[]]
  | c :: rest =>
    let r := splitOnChar sep rest
    if c = sep then [] :: r
    else
      match r with
      | [] => [[c]]
      | g :: gs => (c :: g) :: gs

/-- JavaScript `split` with a one-character separator, on strings. -/
def jsSplit (s : String) (sep : Char) : List String :=
  (splitOnChar sep s.data).map String.mk

/-- Whitespace characters removed by JavaScript `String.prototype.trim`
(the ones that occur in the program's inputs). -/
def isJsWhitespace (c : Char) : Bool :=
  c = ' ' || c = '\t' || c = '\n' || c = '\r'

/-- JavaScript `String.prototype.trim`. -/
def jsTrim (s : String) : String :=
  String.mk (((s.data.dropWhile isJsWhitespace).reverse.dropWhile isJsWhitespace).reverse)

/-- JavaScript `String.prototype.substring(start)` (take the suffix from a
character index), as used on the ASCII status lines. -/
def jsDrop (s : String) (n : Nat) : String :=
  String.mk (s.data.drop n)

/-- JavaScript `String.prototype.substring(0, n)`. -/
def jsTake (s : String) (n : Nat) : String :=
  String.mk (s.data.take n)

/-- JavaScript `parseInt(s) || 0` on the inputs git numstat produces
(digit strings): parse the leading run of digits, defaulting to `0` when
there is none. -/
def jsParseNat (s : String) : Nat :=
  (s.data.takeWhile Char.isDigit).foldl (fun n c => n * 10 + (c.toNat - 48)) 0

/-- One pending modification to a path, as built by
`GitRepository._parseStatus` (src/services/git.js lines 459-470). -/
structure Change where
  status : String
  statusCode : String
  value : String
  checked : Bool
  additions : Nat
  deletions : Nat
deriving Repr, DecidableEq

/-- Lookup table from two-character git status codes to change kinds,
from `GitRepository._getChangeType` (src/services/git.js lines 503-518);
unmapped codes yield `"unknown"`. -/
def _getChangeType (status : String) : String :=
  if status = "M " then "modified"
  else if status = " M" then "modified"
  else if status = "MM" then "modified"
  else if status = "A " then "added"
  else if status = "AM" then "added"
  else if status = "D " then "deleted"
  else if status = " D" then "deleted"
  else if status = "R " then "renamed"
  else if status = "C " then "copied"
  else if status = "U " then "updated"
  else if status = "??" then "untracked"
  else "unknown"

/-- Write into the numstat table, mirroring the JavaScript object
assignment `stats[filename] = ...` (an existing key is overwritten). -/
def statInsert (m : List (String × Nat × Nat)) (k : String) (v : Nat × Nat) :
    List (String × Nat × Nat) :=
  if m.any (fun e => e.1 = k) then m.map (fun e => if e.1 = k then (k, v) else e)
  else m ++ [(k, v)]

/-- Read from the numstat table, mirroring `stats[filename]`. -/
def statLookup (m : List (String × Nat × Nat)) (k : String) : Option (Nat × Nat) :=
  (m.find? (fun e => e.1 = k)).map (fun e => e.2)

/-- Process one numstat line, from `GitRepository._parseNumStat`
(src/services/git.js lines 485-494): split on tabs; lines with at least
three fields record additions, deletions and filename, a `-` field
(binary file) maps to `0`; shorter lines are skipped. -/
def _parseNumStatLine (stats : List (String × Nat × Nat)) (line : String) :
    List (String × Nat × Nat) :=
  match jsSplit line '\t' with
  | additions :: deletions :: filename :: _ =>
    statInsert stats filename
      (if additions = "-" then 0 else jsParseNat additions,
       if deletions = "-" then 0 else jsParseNat deletions)
  | _ => stats

/-- Parse numstat output into a path-keyed table, from
`GitRepository._parseNumStat` (src/services/git.js lines 478-497). -/
def _parseNumStat (numstat : String) : List (String × Nat × Nat) :=
  if numstat = "" then []
  else ((jsSplit numstat '\n').filter (fun l => l ≠ "")).foldl _parseNumStatLine []

/-- Parse one status line, from the body of the `lines.map` callback in
`GitRepository._parseStatus` (src/services/git.js lines 459-470).  The
status code is the first two characters; an untracked marker (`??`, the
only at-most-two-character string containing `??`) shifts the path offset
to 3 instead of 2.  Note the numstat lookup uses the *untrimmed*
`filename`, while `value` is trimmed. -/
def _parseStatusLine (stats : List (String × Nat × Nat)) (line : String) : Change :=
  let statusCode := jsTake line 2
  let filename := if statusCode = "??" then jsDrop line 3 else jsDrop line 2
  { status := _getChangeType statusCode
    statusCode := statusCode
    value := jsTrim filename
    checked := (jsTrim statusCode).data.contains 'A'
    additions := match statLookup stats filename with
      | some ad => ad.1
      | none => 0
    deletions := match statLookup stats filename with
      | some ad => ad.2
      | none => 0 }

/-- Parse status output into structured changes, from
`GitRepository._parseStatus` (src/services/git.js lines 455-472): one
`Change` per non-empty status line, in input order. -/
def _parseStatus (status : String) (numstat : String) : List Change :=
  let lines := (jsSplit status '\n').filter (fun l => l ≠ "")
  let stats := _parseNumStat numstat
  lines.map (fun line => _parseStatusLine stats line)

/-- Failure of a git subprocess (`GitRepository.exec` throwing). -/
inductive GitError
  | cmdFailed (msg : String)
deriving Repr, DecidableEq

/-- Detailed status query, from `GitRepository.getDetailedStatus`
(src/services/git.js lines 56-77).  The three oracles are the results of
`git status -u --short`, `git diff --numstat HEAD`, and
`git diff --numstat`.  A status failure propagates; a numstat failure
falls back to the historyless form and then to the empty string. -/
def getDetailedStatus (statusRes numstatHeadRes numstatRes : Except GitError String) :
    Except GitError (List Change) :=
  match statusRes with
  | .error e => .error e
  | .ok status =>
    if status = "" then .ok []
    else
      let numstat := match numstatHeadRes with
        | .ok n => n
        | .error _ =>
          match numstatRes with
          | .ok n => n
          | .error _ => ""
      .ok (_parseStatus status numstat)

/-- Helper for `globMatchChars`: does `f` hold of some suffix of the path
(the `**` wildcard consumes any run of characters, slashes included)? -/
def anySuffix (f : List Char → Bool) : List Char → Bool
  | [] => f []
  | c :: rest => f (c :: rest) || anySuffix f rest

/-- Helper for `globMatchChars`: does `f` hold of some suffix obtained by
dropping only non-slash characters (the `*` wildcard stays inside one path
segment)? -/
def anyNonSlashSuffix (f : List Char → Bool) : List Char → Bool
  | [] => f []
  | c :: rest => f (c :: rest) || (c ≠ '/' && anyNonSlashSuffix f rest)

/-- Modelled from the spec: the Pattern Matcher module `src/utils/glob.js`
(imported by src/commands/add.js line 94) is not present under src/; this
matcher follows spec section 4.1: literal path segments, `*` matching
within one path segment (excluding `/`), `**` matching across segment
boundaries, `?` matching a single non-slash character; matching is
case-sensitive and anchored (the entire path must match the full
pattern). -/
def globMatchChars : List Char → List Char → Bool
  | [], path => path.isEmpty
  | '*' :: '*' :: ps, path => anySuffix (globMatchChars ps) path
  | '*' :: ps, path => anyNonSlashSuffix (globMatchChars ps) path
  | '?' :: ps, path =>
    match path with
    | [] => false
    | c :: rest => c ≠ '/' && globMatchChars ps rest
  | c :: ps, path =>
    match path with
    | [] => false
    | d :: rest => c = d && globMatchChars ps rest

/-- Modelled from the spec: `matches(path, pattern)` of the absent
`src/utils/glob.js`, on strings. -/
def globMatch (path pattern : String) : Bool :=
  globMatchChars pattern.data path.data

/-- Modelled from the spec: `matchesAnyPattern(path, patterns)` of the
absent `src/utils/glob.js` — true when the path matches at least one
pattern. -/
def matchesAnyPattern (path : String) (patterns : List String) : Bool :=
  patterns.any (fun p => globMatch path p)

/-- Modelled from the spec: `filterByGlob(paths, patterns)` of the absent
`src/utils/glob.js` — returns the paths NOT matching any pattern
(spec section 4.1). -/
def filterByGlob (paths : List String) (patterns : List String) : List String :=
  paths.filter (fun p => !(matchesAnyPattern p patterns))

/-- Apply ignore patterns, from `applyIgnorePatterns`
(src/commands/add.js lines 144-169): an empty pattern list is the
identity; otherwise keep the changes whose path survives `filterByGlob`. -/
def applyIgnorePatterns (changes : List Change) (ignorePatterns : List String) :
    List Change :=
  if ignorePatterns.length = 0 then changes
  else
    let filePaths := changes.map (fun c => c.value)
    let filteredPaths := filterByGlob filePaths ignorePatterns
    changes.filter (fun c => filteredPaths.contains c.value)

/-- A named bucket of changes sharing a requested glob pattern, as built
by `applyGroupPatterns` (src/commands/add.js lines 183-186). -/
structure SquawkGroup where
  pattern : String
  files : List Change
deriving Repr, DecidableEq

/-- Result of `applyGroupPatterns`. -/
structure GroupResult where
  groups : List SquawkGroup
  ungroupedChanges : List Change
deriving Repr, DecidableEq

/-- Insertion into the JavaScript `Set` of grouped file paths
(`groupedFiles.add(file.value)`, src/commands/add.js line 191): ordered,
duplicates ignored. -/
def setAdd (acc : List String) (x : String) : List String :=
  if acc.contains x then acc else acc ++ [x]

/-- The `groupedFiles` set of `applyGroupPatterns`
(src/commands/add.js lines 189-192): every path occurring in some group's
files. -/
def groupedFilesOf (groups : List SquawkGroup) : List String :=
  groups.foldl (fun acc group => group.files.foldl (fun a file => setAdd a file.value) acc) []

/-- Apply group patterns, from `applyGroupPatterns`
(src/commands/add.js lines 177-209): an empty pattern list yields zero
groups with everything ungrouped; otherwise one group per pattern holding
every change matching it (computed independently per pattern, so a change
may land in several groups), empty groups dropped, and the ungrouped
changes are those whose path is in no group. -/
def applyGroupPatterns (changes : List Change) (groupPatterns : List String) :
    GroupResult :=
  if groupPatterns.length = 0 then ⟨[], changes⟩
  else
    let groups := (groupPatterns.map (fun pattern =>
        SquawkGroup.mk pattern
          (changes.filter (fun c => matchesAnyPattern c.value [pattern])))).filter
      (fun group => group.files.length > 0)
    let groupedFiles := groupedFilesOf groups
    let ungroupedChanges := changes.filter (fun c => !(groupedFiles.contains c.value))
    ⟨groups, ungroupedChanges⟩

/-- Statistics accumulated by `processFilesSequentially`
(src/commands/add.js lines 231-237). -/
structure SquawkStats where
  groupCommits : Nat
  groupFiles : Nat
  individualCommits : Nat
  totalCommits : Nat
  failed : Nat
deriving Repr, DecidableEq

/-- The all-zero statistics record. -/
def zeroStats : SquawkStats := ⟨0, 0, 0, 0, 0⟩

/-- Group-processing loop of `processGroups` (src/commands/add.js lines
273-293), with the group's whole try-block (stage, generate via the
approval loop, commit) abstracted into the oracle `gok j`, which tells
whether the j-th group's processing completes without throwing.  Empty
groups are skipped without being attempted; a successful group adds one
commit and its file count; a failed group only records the inline failure
marker — `processGroups` has no `failed` counter.  The boolean list is
the per-attempted-item success/failure output, in order. -/
def processGroupsGo (gok : Nat → Bool) : List SquawkGroup → Nat → (Nat × Nat) × List Bool
  | [], _ => ((0, 0), [])
  | group :: rest, j =>
    if group.files.length = 0 then processGroupsGo gok rest (j + 1)
    else
      let r := processGroupsGo gok rest (j + 1)
      if gok j then ((r.1.1 + 1, r.1.2 + group.files.length), true :: r.2)
      else ((r.1.1, r.1.2), false :: r.2)

/-- Entry point of `processGroups` (src/commands/add.js lines 269-296):
returns (commits, files) plus the attempted-item log. -/
def processGroups (gok : Nat → Bool) (groups : List SquawkGroup) : (Nat × Nat) × List Bool :=
  processGroupsGo gok groups 0

/-- Individual-change loop of `processFilesSequentially`
(src/commands/add.js lines 244-255), with `processSingleFile` (stage,
generate, commit) abstracted into the oracle `cok i`: a success increments
`individualCommits`, a caught per-item error increments `failed`, and the
loop always continues to the next change.  Returns
(individualCommits, failed) plus the attempted-item log. -/
def processChangesGo (cok : Nat → Bool) : List Change → Nat → (Nat × Nat) × List Bool
  | [], _ => ((0, 0), [])
  | _ :: rest, i =>
    let r := processChangesGo cok rest (i + 1)
    if cok i then ((r.1.1 + 1, r.1.2), true :: r.2)
    else ((r.1.1, r.1.2 + 1), false :: r.2)

/-- Sequential per-item pipeline, from `processFilesSequentially`
(src/commands/add.js lines 230-259): groups first, then ungrouped
changes; `totalCommits = groupCommits + individualCommits` computed at
the end.  The boolean list concatenates the groups' and the changes'
attempted-item logs in processing order. -/
def processFilesSequentially (gok cok : Nat → Bool) (changes : List Change)
    (groups : List SquawkGroup) : SquawkStats × List Bool :=
  let g := processGroups gok groups
  let c := processChangesGo cok changes 0
  (⟨g.1.1, g.1.2, c.1.1, g.1.1 + c.1.1, c.1.2⟩, g.2 ++ c.2)

/-- Top-level signal emitted by one `squawk` run: the two no-op messages
(`git.squawk.noChanges`, `git.squawk.allFilesIgnored`) are distinct, and
otherwise the run processed items. -/
inductive SquawkSignal
  | noChanges
  | allFilesIgnored
  | completed
deriving Repr, DecidableEq

/-- Observable outcome of one `squawk` run: the emitted signal, the final
statistics (all-zero when no item was processed), and the
attempted-item log (empty when stage/generate/commit were never called). -/
structure SquawkRun where
  signal : SquawkSignal
  stats : SquawkStats
  attempts : List Bool
deriving Repr, DecidableEq

/-- Orchestrator entry point, from `squawk` (src/commands/add.js lines
104-136): an empty status yields the `noChanges` signal immediately;
otherwise ignore patterns then group patterns are applied, and if the
ignore patterns removed every change the `allFilesIgnored` signal is
emitted; in both no-op cases no item is ever staged, generated for, or
committed.  Otherwise the sequential pipeline runs. -/
def squawk (allChanges : List Change) (ignorePats groupPats : List String)
    (gok cok : Nat → Bool) : SquawkRun :=
  if allChanges.length = 0 then ⟨.noChanges, zeroStats, []⟩
  else
    let filteredChanges := applyIgnorePatterns allChanges ignorePats
    let r := applyGroupPatterns filteredChanges groupPats
    if filteredChanges.length = 0 then ⟨.allFilesIgnored, zeroStats, []⟩
    else
      let run := processFilesSequentially gok cok r.ungroupedChanges r.groups
      ⟨.completed, run.1, run.2⟩

/-- One response of the human interaction capability inside
`approveLLMResponse` (src/services/llms.js lines 182-203): the select
prompt yields approve / retry / retry-with-instructions, or throws when
the prompt is interrupted (`cancel`). -/
inductive HumanAction
  | approve
  | retry
  | retryWithInstructions (customInstructions : String)
  | cancel
deriving Repr, DecidableEq

/-- Error propagated out of `generateWithApproval`: a provider error
thrown by `call`, the interrupted prompt's error rethrown by the catch
block, or — a modelling artifact of scripting the human with a finite
list — the human never answering. -/
inductive LoopError
  | generationFailed (msg : String)
  | promptCancelled
  | noFurtherInput
deriving Repr, DecidableEq

/-- Observable outcome of one `generateWithApproval` invocation: the
returned text or propagated error, the number of provider calls, and the
number of human-interaction prompts shown. -/
structure ApprovalRun where
  result : Except LoopError String
  genCalls : Nat
  humanCalls : Nat
deriving Repr

/-- Approval loop, from `generateWithApproval` (src/services/llms.js
lines 205-241).  `call` is the provider (`this.call`) applied to the
current custom instructions; `skipApproval` is `options.skipApproval`;
the human's successive prompt responses are scripted by `actions`.  A
provider error or an interrupted prompt is rethrown by the catch block
(there is no ExitPromptError handling here); `approve` returns the
response; `retry` clears the instructions; `retry_with_instructions`
carries the new instructions into the next call. -/
def generateWithApprovalGo (call : Option String → Except String String)
    (skipApproval : Bool) :
    List HumanAction → Option String → Nat → Nat → ApprovalRun
  | actions, currentInstructions, g, h =>
    match call currentInstructions with
    | .error e => ⟨.error (.generationFailed e), g + 1, h⟩
    | .ok response =>
      if skipApproval then ⟨.ok response, g + 1, h⟩
      else
        match actions with
        | [] => ⟨.error .noFurtherInput, g + 1, h⟩
        | a :: rest =>
          match a with
          | .cancel => ⟨.error .promptCancelled, g + 1, h + 1⟩
          | .approve => ⟨.ok response, g + 1, h + 1⟩
          | .retry => generateWithApprovalGo call skipApproval rest none (g + 1) (h + 1)
          | .retryWithInstructions s =>
            generateWithApprovalGo call skipApproval rest (some s) (g + 1) (h + 1)

/-- Entry point of the approval loop (src/services/llms.js lines
205-241), starting from the caller-supplied custom instructions with zero
calls made. -/
def generateWithApproval (call : Option String → Except String String)
    (skipApproval : Bool) (actions : List HumanAction)
    (customInstructions : Option String) : ApprovalRun :=
  generateWithApprovalGo call skipApproval actions customInstructions 0 0

/-- Concrete change record used by the closed witnesses and
counterexamples below. -/
def sampleChange : Change := ⟨"modified", "M ", "a.txt", false, 0, 0⟩

/-! Helper lemmas about the partitioner. -/

/-- Matching against a one-pattern list is matching that pattern. -/
theorem matchesAny_singleton (v p : String) :
    matchesAnyPattern v [p] = globMatch v p := by
  simp [matchesAnyPattern]

/-- Membership in the grouped-files set after one insertion. -/
theorem mem_setAdd (acc : List String) (x y : String) :
    y ∈ setAdd acc x ↔ y ∈ acc ∨ y = x := by
  simp only [setAdd]
  split
  · constructor
    · exact fun h => Or.inl h
    · rintro (h | rfl)
      · exact h
      · simpa using ‹List.contains acc y = true›
  · simp [List.mem_append, or_comm]

/-- Membership after folding one group's files into the set. -/
theorem mem_foldl_setAdd (files : List Change) (acc : List String) (y : String) :
    y ∈ files.foldl (fun a f => setAdd a f.value) acc ↔
      y ∈ acc ∨ ∃ f ∈ files, f.value = y := by
  induction files generalizing acc with
  | nil => simp
  | cons f fs ih =>
    simp only [List.foldl_cons, ih, mem_setAdd]
    constructor
    · rintro ((h | h) | ⟨g, hg, hv⟩)
      · exact Or.inl h
      · exact Or.inr ⟨f, by simp, h.symm⟩
      · exact Or.inr ⟨g, by simp [hg], hv⟩
    · rintro (h | ⟨g, hg, hv⟩)
      · exact Or.inl (Or.inl h)
      · rcases List.mem_cons.mp hg with rfl | hg
        · exact Or.inl (Or.inr hv.symm)
        · exact Or.inr ⟨g, hg, hv⟩

/-- A path is in the grouped-files set exactly when some group's files
contain a change with that path. -/
theorem mem_groupedFilesOf (groups : List SquawkGroup) (y : String) :
    y ∈ groupedFilesOf groups ↔ ∃ g ∈ groups, ∃ f ∈ g.files, f.value = y := by
  suffices h : ∀ (acc : List String),
      y ∈ groups.foldl (fun acc group => group.files.foldl (fun a f => setAdd a f.value) acc) acc ↔
        y ∈ acc ∨ ∃ g ∈ groups, ∃ f ∈ g.files, f.value = y by
    simpa [groupedFilesOf] using h []
  induction groups with
  | nil => simp
  | cons g gs ih =>
    intro acc
    simp only [List.foldl_cons, ih, mem_foldl_setAdd]
    constructor
    · rintro ((h | h) | h)
      · exact Or.inl h
      · exact Or.inr ⟨g, by simp, h⟩
      · rcases h with ⟨g', hg', hf⟩
        exact Or.inr ⟨g', by simp [hg'], hf⟩
    · rintro (h | ⟨g', hg', hf⟩)
      · exact Or.inl (Or.inl h)
      · rcases List.mem_cons.mp hg' with rfl | hg'
        · exact Or.inl (Or.inr hf)
        · exact Or.inr ⟨g', hg', hf⟩

/-- The groups returned by the partitioner are exactly the per-pattern
filters that came out non-empty. -/
theorem mem_groups_iff (changes : List Change) (pats : List String) (g : SquawkGroup) :
    g ∈ (applyGroupPatterns changes pats).groups ↔
      (∃ p ∈ pats, g = ⟨p, changes.filter (fun c => matchesAnyPattern c.value [p])⟩)
        ∧ g.files ≠ [] := by
  by_cases hp : pats.length = 0
  · rcases List.length_eq_zero.mp hp with rfl
    simp [applyGroupPatterns]
  · simp only [applyGroupPatterns, hp, if_false, List.mem_filter, List.mem_map]
    constructor
    · rintro ⟨⟨p, hp', rfl⟩, hlen⟩
      refine ⟨⟨p, hp', rfl⟩, ?_⟩
      exact List.length_pos.mp (of_decide_eq_true hlen)
    · rintro ⟨⟨p, hp', rfl⟩, hne⟩
      refine ⟨⟨p, hp', rfl⟩, ?_⟩
      simpa [List.length_pos] using hne

/-- A filtered change's path lies in the grouped-files set exactly when
the change matches some group pattern. -/
theorem grouped_contains_iff (changes : List Change) (pats : List String) (c : Change)
    (hc : c ∈ changes) :
    (c.value ∈ groupedFilesOf (applyGroupPatterns changes pats).groups) ↔
      matchesAnyPattern c.value pats = true := by
  rw [mem_groupedFilesOf]
  constructor
  · rintro ⟨g, hg, f, hf, hv⟩
    rcases (mem_groups_iff changes pats g).mp hg with ⟨⟨p, hp, rfl⟩, -⟩
    have := (List.mem_filter.mp hf).2
    rw [matchesAny_singleton] at this
    have hmatch : globMatch c.value p = true := by rw [← hv]; exact this
    simp only [matchesAnyPattern, List.any_eq_true]
    exact ⟨p, hp, hmatch⟩
  · intro h
    simp only [matchesAnyPattern, List.any_eq_true] at h
    rcases h with ⟨p, hp, hm⟩
    refine ⟨⟨p, changes.filter (fun c => matchesAnyPattern c.value [p])⟩, ?_, c, ?_, rfl⟩
    · rw [mem_groups_iff]
      have hcf : c ∈ changes.filter (fun c => matchesAnyPattern c.value [p]) :=
        List.mem_filter.mpr ⟨hc, by rw [matchesAny_singleton]; exact hm⟩
      exact ⟨⟨p, hp, rfl⟩, List.ne_nil_of_mem hcf⟩
    · exact List.mem_filter.mpr ⟨hc, by rw [matchesAny_singleton]; exact hm⟩

/-- The ungrouped changes are exactly the filtered changes matching no
group pattern. -/
theorem ungrouped_eq (changes : List Change) (pats : List String) :
    (applyGroupPatterns changes pats).ungroupedChanges =
      changes.filter (fun c => !(matchesAnyPattern c.value pats)) := by
  by_cases hp : pats.length = 0
  · rcases List.length_eq_zero.mp hp with rfl
    simp [applyGroupPatterns, matchesAnyPattern]
  · have hgroups : (applyGroupPatterns changes pats).ungroupedChanges =
        changes.filter
          (fun c => !((groupedFilesOf (applyGroupPatterns changes pats).groups).contains c.value)) := by
      simp only [applyGroupPatterns, hp, if_false]
    rw [hgroups]
    apply List.filter_congr
    intro c hc
    have h := grouped_contains_iff changes pats c hc
    have hcont : ((groupedFilesOf (applyGroupPatterns changes pats).groups).contains c.value)
        = matchesAnyPattern c.value pats := by
      cases hx : matchesAnyPattern c.value pats with
      | true => exact List.elem_iff.mpr (h.mpr hx)
      | false =>
        rw [Bool.eq_false_iff]
        intro hcon
        rw [hx] at h
        simp only [Bool.false_eq_true, iff_false] at h
        exact h (List.elem_iff.mp hcon)
    rw [hcont]

/-- Count congruence for predicates agreeing on the list's members. -/
theorem countP_congr_mem {α : Type} (l : List α) (p q : α → Bool)
    (h : ∀ a ∈ l, p a = q a) : l.countP p = l.countP q := by
  induction l with
  | nil => rfl
  | cons a as ih =>
    rw [List.countP_cons, List.countP_cons, h a (by simp),
      ih (fun b hb => h b (by simp [hb]))]

/-- A predicate's count and its complement's count add up to the length. -/
theorem countP_add_countP_not {α : Type} (l : List α) (p : α → Bool) :
    l.countP p + l.countP (fun a => !(p a)) = l.length := by
  induction l with
  | nil => rfl
  | cons a as ih =>
    rw [List.countP_cons, List.countP_cons]
    cases h : p a <;> simp [h] <;> omega

/-- Membership in the partitioner's ungrouped output. -/
theorem mem_ungrouped_iff (changes : List Change) (pats : List String) (c : Change) :
    c ∈ (applyGroupPatterns changes pats).ungroupedChanges ↔
      c ∈ changes ∧ matchesAnyPattern c.value pats = false := by
  rw [ungrouped_eq, List.mem_filter]
  simp [Bool.not_eq_true']

/-- The number of output groups containing a filtered change equals the
number of group patterns it matches. -/
theorem countP_groups (changes : List Change) (pats : List String) (c : Change)
    (hc : c ∈ changes) :
    (applyGroupPatterns changes pats).groups.countP (fun g => decide (c ∈ g.files)) =
      pats.countP (fun p => matchesAnyPattern c.value [p]) := by
  by_cases hp : pats.length = 0
  · rcases List.length_eq_zero.mp hp with rfl
    simp [applyGroupPatterns]
  · simp only [applyGroupPatterns, hp, if_false]
    rw [List.countP_filter, List.countP_map]
    apply countP_congr_mem
    intro p _
    simp only [Function.comp]
    cases hx : matchesAnyPattern c.value [p] with
    | true =>
      have hcf : c ∈ changes.filter (fun c => matchesAnyPattern c.value [p]) :=
        List.mem_filter.mpr ⟨hc, hx⟩
      have hlen : 0 < (changes.filter (fun c => matchesAnyPattern c.value [p])).length :=
        List.length_pos.mpr (List.ne_nil_of_mem hcf)
      simp [hcf, hlen]
    | false =>
      have hcf : c ∉ changes.filter (fun c => matchesAnyPattern c.value [p]) := by
        intro hmem
        have := (List.mem_filter.mp hmem).2
        rw [hx] at this
        exact absurd this (by simp)
      simp [hcf]

/-! Helper lemmas about the orchestrator loops. -/

/-- Per-change loop: commit and failure counters count the succeeding and
failing oracle positions, and every change is attempted exactly once. -/
theorem processChangesGo_spec (cok : Nat → Bool) (changes : List Change) (i : Nat) :
    (processChangesGo cok changes i).1.1 =
        (List.range changes.length).countP (fun k => cok (i + k)) ∧
    (processChangesGo cok changes i).1.2 =
        (List.range changes.length).countP (fun k => !(cok (i + k))) ∧
    (processChangesGo cok changes i).2.length = changes.length := by
  induction changes generalizing i with
  | nil => simp [processChangesGo]
  | cons c cs ih =>
    have hr := ih (i + 1)
    have hrange : ∀ (p : Nat → Bool),
        (List.range (cs.length + 1)).countP (fun k => p (i + k)) =
          (if p i then 1 else 0) + (List.range cs.length).countP (fun k => p (i + 1 + k)) := by
      intro p
      rw [List.range_succ_eq_map, List.countP_cons, List.countP_map]
      have : (List.range cs.length).countP ((fun k => p (i + k)) ∘ Nat.succ) =
          (List.range cs.length).countP (fun k => p (i + 1 + k)) := by
        apply countP_congr_mem
        intro k _
        simp only [Function.comp, Nat.succ_eq_add_one]
        congr 1
        omega
      rw [this]
      simp only [Nat.add_zero]
      omega
    simp only [processChangesGo, List.length_cons]
    cases h : cok i with
    | true =>
      simp only [h, if_true]
      refine ⟨?_, ?_, ?_⟩
      · rw [hrange cok, hr.1]; simp only [h, if_true]; omega
      · rw [hrange (fun x => !(cok x)), hr.2.1]
        simp only [h, Bool.not_true, Bool.false_eq_true, if_false]
        omega
      · simp [hr.2.2]
    | false =>
      simp only [h, Bool.false_eq_true, if_false]
      refine ⟨?_, ?_, ?_⟩
      · rw [hrange cok, hr.1]; simp only [h, Bool.false_eq_true, if_false]; omega
      · rw [hrange (fun x => !(cok x)), hr.2.1]
        simp only [h, Bool.not_false, if_true]
        omega
      · simp [hr.2.2]

/-- Per-group loop over non-empty groups: the commit counter counts the
succeeding oracle positions — there is no failure counter — and every
group is attempted exactly once. -/
theorem processGroupsGo_spec (gok : Nat → Bool) (groups : List SquawkGroup) (j : Nat)
    (hg : ∀ g ∈ groups, g.files ≠ []) :
    (processGroupsGo gok groups j).1.1 =
        (List.range groups.length).countP (fun k => gok (j + k)) ∧
    (processGroupsGo gok groups j).2.length = groups.length := by
  induction groups generalizing j with
  | nil => simp [processGroupsGo]
  | cons g gs ih =>
    have hg0 : g.files ≠ [] := hg g (by simp)
    have hlen : ¬ g.files.length = 0 := by
      simpa [List.length_eq_zero] using hg0
    have hr := ih (j + 1) (fun g' hg' => hg g' (by simp [hg']))
    have hrange : ∀ (p : Nat → Bool),
        (List.range (gs.length + 1)).countP (fun k => p (j + k)) =
          (if p j then 1 else 0) + (List.range gs.length).countP (fun k => p (j + 1 + k)) := by
      intro p
      rw [List.range_succ_eq_map, List.countP_cons, List.countP_map]
      have : (List.range gs.length).countP ((fun k => p (j + k)) ∘ Nat.succ) =
          (List.range gs.length).countP (fun k => p (j + 1 + k)) := by
        apply countP_congr_mem
        intro k _
        simp only [Function.comp, Nat.succ_eq_add_one]
        congr 1
        omega
      rw [this]
      simp only [Nat.add_zero]
      omega
    simp only [processGroupsGo, hlen, if_false, List.length_cons]
    cases h : gok j with
    | true =>
      simp only [h, if_true]
      refine ⟨?_, ?_⟩
      · rw [hrange gok, hr.1]; simp only [h, if_true]; omega
      · simp [hr.2]
    | false =>
      simp only [h, Bool.false_eq_true, if_false]
      refine ⟨?_, ?_⟩
      · rw [hrange gok, hr.1]; simp only [h, Bool.false_eq_true, if_false]; omega
      · simp [hr.2]

/-! Claim theorems. -/

/-- Claim C6: for every raw status and numstat input, the Status
Translator produces exactly one Change per non-empty status line, and the
i-th output Change is parsed from the i-th non-empty input line (input
order is preserved, no re-sorting). -/
theorem parseStatus_one_change_per_line (status numstat : String) (i : Nat) :
    (_parseStatus status numstat).length
        = ((jsSplit status '\n').filter (fun l => l ≠ "")).length ∧
    (_parseStatus status numstat)[i]? =
      (((jsSplit status '\n').filter (fun l => l ≠ ""))[i]?).map
        (_parseStatusLine (_parseNumStat numstat)) := by
  constructor
  · simp [_parseStatus]
  · simp [_parseStatus, List.getElem?_map]

/-- Claim C7: with empty pattern lists, `applyIgnorePatterns` returns the
input sequence unchanged and `applyGroupPatterns` returns zero groups
with every input change ungrouped. -/
theorem empty_patterns_identity (changes : List Change) :
    applyIgnorePatterns changes [] = changes ∧
    applyGroupPatterns changes [] = ⟨[], changes⟩ :=
  ⟨rfl, rfl⟩

/-- Claim C3: for every change sequence and non-empty group-pattern list,
every change matching a pattern lands in the files of a group carrying
that pattern (so overlapping patterns duplicate it across groups), the
ungrouped changes are exactly those matching no group pattern, and every
returned group is non-empty (empty groups are dropped). -/
theorem applyGroupPatterns_correct (changes : List Change) (pats : List String)
    (_hne : pats ≠ []) :
    (∀ p ∈ pats, ∀ c ∈ changes, matchesAnyPattern c.value [p] = true →
      ∃ g ∈ (applyGroupPatterns changes pats).groups, g.pattern = p ∧ c ∈ g.files) ∧
    (applyGroupPatterns changes pats).ungroupedChanges =
      changes.filter (fun c => !(matchesAnyPattern c.value pats)) ∧
    (∀ g ∈ (applyGroupPatterns changes pats).groups, g.files ≠ []) := by
  refine ⟨?_, ungrouped_eq changes pats, ?_⟩
  · intro p hp c hc hm
    have hcf : c ∈ changes.filter (fun c => matchesAnyPattern c.value [p]) :=
      List.mem_filter.mpr ⟨hc, hm⟩
    refine ⟨⟨p, changes.filter (fun c => matchesAnyPattern c.value [p])⟩, ?_, rfl, hcf⟩
    rw [mem_groups_iff]
    exact ⟨⟨p, hp, rfl⟩, List.ne_nil_of_mem hcf⟩
  · intro g hg
    exact ((mem_groups_iff changes pats g).mp hg).2

/-- Witness for claim C3 at a concrete input. -/
theorem applyGroupPatterns_correct_witness :
    (["*.txt"] ≠ ([] : List String)) ∧
    (applyGroupPatterns [sampleChange] ["*.txt"]).ungroupedChanges =
      [sampleChange].filter (fun c => !(matchesAnyPattern c.value ["*.txt"])) :=
  ⟨by decide, (applyGroupPatterns_correct [sampleChange] ["*.txt"] (by decide)).2.1⟩

/-- Claim C4, counterexample: with the overlapping group patterns
`*.txt` and `a*`, the change `a.txt` is placed in two groups, so it does
NOT belong to exactly one group or to ungrouped — the count of buckets
holding it is 2 where the claim requires 1, refuting the partition
claim as stated. -/
theorem applyGroupPatterns_not_partition :
    (applyGroupPatterns [sampleChange] ["*.txt", "a*"]).groups.countP
        (fun g => decide (sampleChange ∈ g.files))
      + (if sampleChange ∈ (applyGroupPatterns [sampleChange] ["*.txt", "a*"]).ungroupedChanges
         then 1 else 0) = 2 := by
  decide

/-- Claim C4, amended: the groups' files together with the ungrouped set
cover every filtered change (no omissions) and grouped changes never
appear in ungrouped; a change belongs to exactly one bucket whenever it
matches at most one group pattern, but overlapping patterns place it in
several groups. -/
theorem applyGroupPatterns_partition_amended (changes : List Change) (pats : List String) :
    (∀ c ∈ changes,
      (∃ g ∈ (applyGroupPatterns changes pats).groups, c ∈ g.files) ∨
        c ∈ (applyGroupPatterns changes pats).ungroupedChanges) ∧
    (∀ c ∈ (applyGroupPatterns changes pats).ungroupedChanges,
      ∀ g ∈ (applyGroupPatterns changes pats).groups, c ∉ g.files) ∧
    (∀ c ∈ changes,
      pats.countP (fun p => matchesAnyPattern c.value [p]) ≤ 1 →
        (applyGroupPatterns changes pats).groups.countP (fun g => decide (c ∈ g.files)) +
          (if c ∈ (applyGroupPatterns changes pats).ungroupedChanges then 1 else 0) = 1) := by
  refine ⟨?_, ?_, ?_⟩
  · intro c hc
    cases hx : matchesAnyPattern c.value pats with
    | true =>
      left
      simp only [matchesAnyPattern, List.any_eq_true] at hx
      rcases hx with ⟨p, hp, hm⟩
      have hcf : c ∈ changes.filter (fun c => matchesAnyPattern c.value [p]) :=
        List.mem_filter.mpr ⟨hc, by rw [matchesAny_singleton]; exact hm⟩
      refine ⟨⟨p, changes.filter (fun c => matchesAnyPattern c.value [p])⟩, ?_, hcf⟩
      rw [mem_groups_iff]
      exact ⟨⟨p, hp, rfl⟩, List.ne_nil_of_mem hcf⟩
    | false =>
      right
      exact (mem_ungrouped_iff changes pats c).mpr ⟨hc, hx⟩
  · intro c hcu g hg hcf
    have hx := ((mem_ungrouped_iff changes pats c).mp hcu).2
    rcases (mem_groups_iff changes pats g).mp hg with ⟨⟨p, hp, rfl⟩, -⟩
    have hm := (List.mem_filter.mp hcf).2
    rw [matchesAny_singleton] at hm
    have : matchesAnyPattern c.value pats = true := by
      simp only [matchesAnyPattern, List.any_eq_true]
      exact ⟨p, hp, hm⟩
    rw [hx] at this
    exact absurd this (by simp)
  · intro c hc hle
    rw [countP_groups changes pats c hc]
    have hcongr : pats.countP (fun p => matchesAnyPattern c.value [p])
        = pats.countP (fun p => globMatch c.value p) :=
      countP_congr_mem _ _ _ (fun p _ => matchesAny_singleton c.value p)
    have hiff : matchesAnyPattern c.value pats = true ↔
        0 < pats.countP (fun p => matchesAnyPattern c.value [p]) := by
      rw [hcongr, List.countP_pos_iff]
      simp only [matchesAnyPattern, List.any_eq_true]
    cases hx : matchesAnyPattern c.value pats with
    | true =>
      have hpos := hiff.mp hx
      have hnot : c ∉ (applyGroupPatterns changes pats).ungroupedChanges := by
        intro hmem
        have := ((mem_ungrouped_iff changes pats c).mp hmem).2
        rw [hx] at this
        exact absurd this (by simp)
      simp only [hnot, if_false]
      omega
    | false =>
      have hzero : pats.countP (fun p => matchesAnyPattern c.value [p]) = 0 := by
        by_contra hne
        have hpos : 0 < pats.countP (fun p => matchesAnyPattern c.value [p]) :=
          Nat.pos_of_ne_zero hne
        rw [← hiff] at hpos
        rw [hx] at hpos
        exact absurd hpos (by simp)
      have hmem : c ∈ (applyGroupPatterns changes pats).ungroupedChanges :=
        (mem_ungrouped_iff changes pats c).mpr ⟨hc, hx⟩
      simp only [hmem, if_true]
      omega

/-- Witness for the amended claim C4 at a concrete non-overlapping
input. -/
theorem applyGroupPatterns_partition_amended_witness :
    (applyGroupPatterns [sampleChange] ["*.txt"]).groups.countP
        (fun g => decide (sampleChange ∈ g.files))
      + (if sampleChange ∈ (applyGroupPatterns [sampleChange] ["*.txt"]).ungroupedChanges
         then 1 else 0) = 1 :=
  (applyGroupPatterns_partition_amended [sampleChange] ["*.txt"]).2.2 sampleChange
    (by decide) (by decide)

/-- Claim C1, counterexample: a run over exactly one item — a non-empty
group whose processing throws — attempts the item (the log records one
failure) and commits nothing, yet the final statistics report
`failed = 0`, not 1: `processGroups` displays a group failure without
counting it. -/
theorem processGroups_failure_uncounted :
    (processFilesSequentially (fun _ => false) (fun _ => true) []
        [⟨"*.txt", [sampleChange]⟩]).1.failed = 0 ∧
    (processFilesSequentially (fun _ => false) (fun _ => true) []
        [⟨"*.txt", [sampleChange]⟩]).1.totalCommits = 0 ∧
    (processFilesSequentially (fun _ => false) (fun _ => true) []
        [⟨"*.txt", [sampleChange]⟩]).2 = [false] :=
  ⟨rfl, rfl, rfl⟩

/-- Claim C1, amended: over non-empty groups and ungrouped changes with
exactly one failing item, the run still attempts all N items and ends
with `totalCommits = N - 1` and
`totalCommits = groupCommits + individualCommits`; but `failed` equals
the number of failing ungrouped changes — 1 when the failing item is an
individual change and 0 when it is a group, whose failure is displayed
but not counted. -/
theorem squawk_single_failure (gok cok : Nat → Bool) (changes : List Change)
    (groups : List SquawkGroup)
    (hg : ∀ g ∈ groups, g.files ≠ [])
    (hone : (List.range groups.length).countP (fun j => !(gok j))
        + (List.range changes.length).countP (fun i => !(cok i)) = 1) :
    (processFilesSequentially gok cok changes groups).2.length
        = groups.length + changes.length ∧
    (processFilesSequentially gok cok changes groups).1.totalCommits + 1
        = groups.length + changes.length ∧
    (processFilesSequentially gok cok changes groups).1.failed
        = (List.range changes.length).countP (fun i => !(cok i)) ∧
    (processFilesSequentially gok cok changes groups).1.totalCommits =
      (processFilesSequentially gok cok changes groups).1.groupCommits +
        (processFilesSequentially gok cok changes groups).1.individualCommits := by
  obtain ⟨hgc, hgl⟩ := processGroupsGo_spec gok groups 0 hg
  obtain ⟨hcc, hcf, hcl⟩ := processChangesGo_spec cok changes 0
  have e1 : (List.range groups.length).countP (fun k => gok (0 + k)) =
      (List.range groups.length).countP (fun k => gok k) :=
    countP_congr_mem _ _ _ (fun a _ => by rw [Nat.zero_add])
  have e2 : (List.range changes.length).countP (fun k => cok (0 + k)) =
      (List.range changes.length).countP (fun k => cok k) :=
    countP_congr_mem _ _ _ (fun a _ => by rw [Nat.zero_add])
  have e3 : (List.range changes.length).countP (fun k => !(cok (0 + k))) =
      (List.range changes.length).countP (fun k => !(cok k)) :=
    countP_congr_mem _ _ _ (fun a _ => by rw [Nat.zero_add])
  have hgsum := countP_add_countP_not (List.range groups.length) (fun k => gok k)
  have hcsum := countP_add_countP_not (List.range changes.length) (fun k => cok k)
  rw [List.length_range] at hgsum hcsum
  simp only [processFilesSequentially, processGroups, List.length_append]
  rw [hgl, hcl, hgc, hcc, hcf, e1, e2, e3]
  refine ⟨by simp, by omega, by simp, by simp⟩

/-- Witness for the amended claim C1: one group and one ungrouped change
where only the individual change fails. -/
theorem squawk_single_failure_witness :
    ((List.range 1).countP (fun j => !((fun _ : Nat => true) j))
        + (List.range 1).countP (fun i => !((fun _ : Nat => false) i)) = 1) ∧
    (processFilesSequentially (fun _ => true) (fun _ => false) [sampleChange]
        [⟨"*.txt", [sampleChange]⟩]).2.length = 2 ∧
    (processFilesSequentially (fun _ => true) (fun _ => false) [sampleChange]
        [⟨"*.txt", [sampleChange]⟩]).1.totalCommits + 1 = 2 ∧
    (processFilesSequentially (fun _ => true) (fun _ => false) [sampleChange]
        [⟨"*.txt", [sampleChange]⟩]).1.failed
      = (List.range 1).countP (fun i => !((fun _ : Nat => false) i)) := by
  have h := squawk_single_failure (fun _ => true) (fun _ => false) [sampleChange]
    [⟨"*.txt", [sampleChange]⟩] (by decide) (by decide)
  exact ⟨by decide, h.1, h.2.1, h.2.2.1⟩

/-- Claim C5, counterexample: when the human interaction is cancelled
(the select prompt throws), `generateWithApproval` propagates the error —
it does NOT return an empty result. -/
theorem generateWithApproval_cancel_raises :
    (generateWithApproval (fun _ => .ok "a message") false [.cancel] none).result
        = .error .promptCancelled ∧
    (generateWithApproval (fun _ => .ok "a message") false [.cancel] none).result
        ≠ .ok "" :=
  ⟨rfl, fun h => Except.noConfusion h⟩

/-- Claim C5, amended: a cancelled prompt makes the approval loop raise
(one generation call, one prompt, error propagated), and the surrounding
run does not crash because per-item errors are caught at the item
boundary — the individual-change loop attempts every change no matter
which oracle results fail. -/
theorem generateWithApproval_cancel_propagates
    (call : Option String → Except String String) (instr : Option String)
    (r : String) (actions : List HumanAction) (hcall : call instr = .ok r) :
    (generateWithApproval call false (.cancel :: actions) instr)
        = ⟨.error .promptCancelled, 1, 1⟩ ∧
    (∀ (cok : Nat → Bool) (changes : List Change),
      (processChangesGo cok changes 0).2.length = changes.length) := by
  constructor
  · simp [generateWithApproval, generateWithApprovalGo, hcall]
  · intro cok changes
    exact (processChangesGo_spec cok changes 0).2.2

/-- Witness for the amended claim C5 at a concrete generation stub. -/
theorem generateWithApproval_cancel_propagates_witness :
    ((fun _ : Option String => (.ok "m" : Except String String)) none = .ok "m") ∧
    (generateWithApproval (fun _ => .ok "m") false [.cancel] none)
        = ⟨.error .promptCancelled, 1, 1⟩ :=
  ⟨rfl, (generateWithApproval_cancel_propagates (fun _ => .ok "m") none "m" [] rfl).1⟩

/-- Claim C8: with a generation stub returning "ok" and `skipApproval`
set, the approval loop resolves to "ok" after exactly one generation
call and zero human-interaction prompts, whatever responses the human
would have given. -/
theorem generateWithApproval_autoApprove (actions : List HumanAction)
    (customInstructions : Option String) :
    generateWithApproval (fun _ => .ok "ok") true actions customInstructions =
      ⟨.ok "ok", 1, 0⟩ := by
  cases actions <;> rfl

/-- Claim C9: with zero changes the orchestrator returns immediately with
the `noChanges` signal, all-zero statistics and an empty attempt log
(stage/generate/commit never run); when the ignore patterns remove every
change it instead returns the distinct `allFilesIgnored` signal, again
with zero statistics and no attempts. -/
theorem squawk_noop_cases (changes : List Change) (ig gp : List String)
    (gok cok : Nat → Bool) :
    squawk [] ig gp gok cok = ⟨.noChanges, zeroStats, []⟩ ∧
    (changes ≠ [] → applyIgnorePatterns changes ig = [] →
      squawk changes ig gp gok cok = ⟨.allFilesIgnored, zeroStats, []⟩) ∧
    SquawkSignal.noChanges ≠ SquawkSignal.allFilesIgnored := by
  refine ⟨rfl, ?_, by simp⟩
  intro hne hig
  have hlen : ¬ changes.length = 0 := by
    simpa [List.length_eq_zero] using hne
  simp [squawk, hlen, hig]

/-- Witness for claim C9 at a concrete ignored-everything input. -/
theorem squawk_noop_cases_witness :
    ([sampleChange] ≠ ([] : List Change)) ∧
    applyIgnorePatterns [sampleChange] ["*"] = [] ∧
    squawk [sampleChange] ["*"] [] (fun _ => true) (fun _ => true)
      = ⟨.allFilesIgnored, zeroStats, []⟩ :=
  ⟨by decide, by decide,
    ((squawk_noop_cases [sampleChange] ["*"] [] (fun _ => true) (fun _ => true)).2.1
      (by decide) (by decide))⟩

/-- Claim C10: a status-query failure propagates out of
`getDetailedStatus`; a numstat failure never does — the query falls back
from the HEAD form to the plain form and then to the empty string, still
producing one Change per non-empty status line, every change parsed with
empty numstat carrying additions = 0 and deletions = 0. -/
theorem getDetailedStatus_numstat_fallback (s n : String) (e e2 : GitError)
    (nh np : Except GitError String) :
    getDetailedStatus (.error e) nh np = .error e ∧
    getDetailedStatus (.ok s) (.error e) (.ok n) =
      (if s = "" then .ok [] else .ok (_parseStatus s n)) ∧
    getDetailedStatus (.ok s) (.error e) (.error e2) =
      (if s = "" then .ok [] else .ok (_parseStatus s "")) ∧
    (∀ c ∈ _parseStatus s "", c.additions = 0 ∧ c.deletions = 0) ∧
    (_parseStatus s "").length = ((jsSplit s '\n').filter (fun l => l ≠ "")).length := by
  refine ⟨rfl, rfl, rfl, ?_, by simp [_parseStatus]⟩
  intro c hc
  simp only [_parseStatus, List.mem_map] at hc
  rcases hc with ⟨line, -, rfl⟩
  simp [_parseStatusLine, _parseNumStat, statLookup]

/-- Witness for claim C10: both numstat queries failing on a one-line
status still yields one fully-parsed change with zero line counts. -/
theorem getDetailedStatus_numstat_fallback_witness :
    getDetailedStatus (.ok "M  a.js") (.error (.cmdFailed "bad")) (.error (.cmdFailed "bad2"))
      = .ok [⟨"modified", "M ", "a.js", false, 0, 0⟩] := by
  have h := getDetailedStatus_numstat_fallback "M  a.js" "" (.cmdFailed "bad")
    (.cmdFailed "bad2") (.ok "") (.ok "")
  rw [h.2.2.1, if_neg (by decide)]
  rfl

/-- Claim C2, code-bug evaluation: on the claim's scenario the translator
produces the three changes in order with the claimed kinds, but `a.js`
gets additions = 0 and deletions = 0 instead of 3 and 1 — the numstat
table is keyed by `a.js` while the lookup uses the untrimmed filename
` a.js` (leading separator space from the status line), so the join
misses every tracked file. -/
theorem translator_numstat_join_failing_input :
    _parseStatus "M  a.js\n?? b.txt\nA  c.json" "3\t1\ta.js" =
      [⟨"modified", "M ", "a.js", false, 0, 0⟩,
       ⟨"untracked", "??", "b.txt", false, 0, 0⟩,
       ⟨"added", "A ", "c.json", true, 0, 0⟩] ∧
    _parseNumStat "3\t1\ta.js" = [("a.js", 3, 1)] ∧
    statLookup (_parseNumStat "3\t1\ta.js") " a.js" = none :=
  ⟨by decide, by decide, by decide⟩

end CoParrot
